import Mathlib

/-!
Verification of the GSIL result-processing pipeline (gsil/engine.py).

This file gives a shallow embedding of the `Engine` class of
`src/gsil/engine.py` and proves/refutes the frozen claims about it.

Modelling conventions:
* Python strings are Lean `String`s; the Python operations used by the
  source (`splitlines`, `strip`, `lower`, `in` (substring), `replace`,
  `split(' ')`) are re-implemented below over `List Char` with Python's
  semantics for the character ranges the source can meet.
* The per-hit loop's mutable instance fields (`self.url`, `self.sha`,
  `self.path`, `self.full_name`, `self.code`) are modelled as locals:
  every one of them is re-assigned before use within one iteration.
* External collaborators (GitHub transport, `requests` + BeautifulSoup
  title fetching, `IPy` IP classification, `tld.get_tld`) and the
  configuration data loaded from `gsil/config.py` (which is not part of
  the sources) are parameters (`PageEnv`, `MailEnv`): an exception path
  of such a collaborator is an `Option`/oracle outcome.
* Python exceptions that the source does not catch (the `host[0]`
  IndexError in `_mail`) are modelled with `Option`: `none` is the crash.
-/

namespace GSIL

/-! ## Python string primitives -/

/-- Characters treated as line boundaries by Python `str.splitlines`. -/
def isLineBoundary (c : Char) : Bool :=
  c = '\n' || c = '\r' || c.toNat = 0x0B || c.toNat = 0x0C ||
  c.toNat = 0x1C || c.toNat = 0x1D || c.toNat = 0x1E ||
  c.toNat = 0x85 || c.toNat = 0x2028 || c.toNat = 0x2029

/-- Worker for `pySplitlines`; `acc` is the reversed current line.
A `\r\n` pair counts as one boundary. -/
def pySplitlinesAux : List Char → List Char → List String
  | [], acc => if acc.isEmpty then [] else [String.mk acc.reverse]
  | '\r' :: '\n' :: rest, acc => String.mk acc.reverse :: pySplitlinesAux rest []
  | c :: rest, acc =>
    if isLineBoundary c then String.mk acc.reverse :: pySplitlinesAux rest []
    else pySplitlinesAux rest (c :: acc)

/-- Python `str.splitlines()` (no terminator kept, no trailing empty line). -/
def pySplitlines (s : String) : List String :=
  pySplitlinesAux s.data []

/-- Characters stripped by Python `str.strip()` (whitespace). -/
def pyIsSpace (c : Char) : Bool :=
  c = ' ' || c = '\t' || c = '\n' || c = '\r' ||
  c.toNat = 0x0B || c.toNat = 0x0C ||
  (0x1C ≤ c.toNat && c.toNat ≤ 0x1F) || c.toNat = 0x85 || c.toNat = 0xA0 ||
  c.toNat = 0x1680 || (0x2000 ≤ c.toNat && c.toNat ≤ 0x200A) ||
  c.toNat = 0x2028 || c.toNat = 0x2029 || c.toNat = 0x202F ||
  c.toNat = 0x205F || c.toNat = 0x3000

/-- Python `str.strip()`. -/
def pyStrip (s : String) : String :=
  String.mk (((s.data.dropWhile pyIsSpace).reverse.dropWhile pyIsSpace).reverse)

/-- Python `str.lower()` (ASCII letters; the source compares ASCII hosts). -/
def pyLower (s : String) : String :=
  String.mk (s.data.map Char.toLower)

/-- Test for `s.strip() == ''` — the blank-line check of normal-match mode. -/
def pyIsBlank (s : String) : Bool :=
  s.data.all pyIsSpace

/-- Bool test for `pat` occurring as a contiguous subsequence of `l`
(Python's `pat in s` for strings). -/
def occursIn (pat : List Char) : List Char → Bool
  | [] => pat.isEmpty
  | l@(_ :: rest) => pat.isPrefixOf l || occursIn pat rest

/-- Python `sub in s` substring containment. -/
def pyIn (sub s : String) : Bool :=
  occursIn sub.data s.data

/-- Worker for Python `code.replace('<img', '')`: scan left to right and
drop each non-overlapping occurrence of `<img` (engine.py line 250). -/
def replaceImgAux : List Char → List Char
  | [] => []
  | '<' :: 'i' :: 'm' :: 'g' :: rest => replaceImgAux rest
  | c :: rest => c :: replaceImgAux rest

/-- Model of `self.code.replace('<img', '')` (engine.py line 250). -/
def pyReplaceImg (s : String) : String :=
  String.mk (replaceImgAux s.data)

/-! ## Rules and keyword resolution -/

/-- A search rule: keyword, matching mode tag (a raw string, as the source
dispatches on string equality) and optional extension list. -/
structure Rule where
  keyword : String
  mode : String
  extension : Option String
deriving DecidableEq, Repr

/-- Model of `Engine._keywords` (engine.py lines 305-318): an unquoted keyword with
spaces splits into independent keywords; a quoted keyword drops the quotes;
otherwise the keyword itself.  `replace('"', '')` for the single-character
pattern is char filtering. -/
def keywordsOf (keyword : String) : List String :=
  if ¬ (pyIn "\"" keyword = true) ∧ pyIn " " keyword = true then
    keyword.splitOn " "
  else
    if pyIn "\"" keyword = true then [String.mk (keyword.data.filter (fun c => ¬ (c = '"')))]
    else [keyword]

/-! ## only-match mode -/

/-- Model of the `Engine.codes` only-match branch (engine.py lines 260-265): for each
line in order, for each resolved keyword, emit the line if the keyword is
a substring. -/
def onlyMatch (codes keywords : List String) : List String :=
  codes.foldl
    (fun acc code =>
      keywords.foldl (fun acc2 kw => if pyIn kw code then acc2 ++ [code] else acc2) acc)
    []

/-- The specification's description of only-match mode, for comparison:
one fragment entry per (line, keyword) match event, in original line
order. -/
def onlyMatchSpec (codes keywords : List String) : List String :=
  codes.flatMap (fun line => (keywords.filter (fun kw => pyIn kw line)).map (fun _ => line))

/-! ## normal-match mode -/

/-- The per-trigger state of the normal-match loops: the `idxs` list and
the emitted fragments.  Fragments are kept together with the line index
they came from; `Engine.codes` emits only the line text
(`normalMatch` projects the text out). -/
structure WinState where
  idxs : List Int
  pairs : List (Int × String)
deriving DecidableEq, Repr

/-- One step of the `for i in range(-3, -0)` loop of the normal-match
branch (engine.py lines 273-283): skip if the index was already taken,
is negative, or the line is blank; otherwise emit the line. -/
def prevStep (codes : List String) (idx : Int) (st : WinState) (i : Int) : WinState :=
  let iIdx := idx + i
  if iIdx ∈ st.idxs then st
  else if iIdx < 0 then st
  else if pyIsBlank (codes.getD iIdx.toNat "") then st
  else ⟨st.idxs ++ [iIdx], st.pairs ++ [(iIdx, codes.getD iIdx.toNat "")]⟩

/-- One step of the `for i in range(1, 4)` loop of the normal-match branch
(engine.py lines 289-299): skip if the index was already taken, is past
the end, or the line is blank; otherwise emit the line. -/
def nextStep (codes : List String) (idx : Int) (st : WinState) (i : Int) : WinState :=
  let iIdx := idx + i
  if iIdx ∈ st.idxs then st
  else if (codes.length : Int) ≤ iIdx then st
  else if pyIsBlank (codes.getD iIdx.toNat "") then st
  else ⟨st.idxs ++ [iIdx], st.pairs ++ [(iIdx, codes.getD iIdx.toNat "")]⟩

/-- The fragments emitted for one trigger line `idx` in normal-match mode
(engine.py lines 271-299): `idxs = []` is reset here, i.e. per trigger;
up to 3 previous lines, the trigger line itself (never recorded into
`idxs`), up to 3 following lines. -/
def triggerWindowPairs (codes : List String) (idx : Int) : List (Int × String) :=
  let st1 := List.foldl (prevStep codes idx) ⟨[], []⟩ [-3, -2, -1]
  let st2 :=
    if idx ∈ st1.idxs then st1
    else ⟨st1.idxs, st1.pairs ++ [(idx, codes.getD idx.toNat "")]⟩
  let st3 := List.foldl (nextStep codes idx) st2 [1, 2, 3]
  st3.pairs

/-- Model of the `Engine.codes` normal-match branch (engine.py lines 267-300), with
the source line index of each emitted fragment kept. -/
def normalMatchPairs (codes keywords : List String) : List (Int × String) :=
  codes.enum.foldl
    (fun acc p =>
      keywords.foldl
        (fun acc2 keyword =>
          if pyIn keyword p.2 then acc2 ++ triggerWindowPairs codes (Int.ofNat p.1)
          else acc2)
        acc)
    []

/-- The fragment list of the normal-match branch as `Engine.codes`
returns it. -/
def normalMatch (codes keywords : List String) : List String :=
  (normalMatchPairs codes keywords).map Prod.snd

/-! ## mail mode -/

/-- Class `[a-zA-Z0-9_.+-]` — the local part of `regex_mail`. -/
def isC1 (c : Char) : Bool :=
  c.isAlpha || c.isDigit || c = '_' || c = '.' || c = '+' || c = '-'

/-- Class `[a-zA-Z0-9-]` — the host label of `regex_mail`/`regex_host`. -/
def isC2 (c : Char) : Bool :=
  c.isAlpha || c.isDigit || c = '-'

/-- Class `[a-zA-Z0-9-.]` — the host tail of `regex_mail`/`regex_host`. -/
def isC3 (c : Char) : Bool :=
  c.isAlpha || c.isDigit || c = '-' || c = '.'

/-- Greedy match of `[a-zA-Z0-9-]+\.[a-zA-Z0-9-.]+` at the front of `l`,
returning the matched host and the rest.  Backtracking cannot help this
pattern (neither class contains `@`, the first does not contain `.`), so
the greedy scan is exact for Python `re`. -/
def matchHost (l : List Char) : Option (List Char × List Char) :=
  let r1 := l.takeWhile isC2
  match l.dropWhile isC2 with
  | '.' :: rest2 =>
    let r2 := rest2.takeWhile isC3
    if r1.isEmpty || r2.isEmpty then none
    else some (r1 ++ '.' :: r2, rest2.dropWhile isC3)
  | _ => none

theorem matchHost_rest_length {l h r : List Char} (hm : matchHost l = some (h, r)) :
    r.length < l.length := by
  unfold matchHost at hm
  split at hm
  case _ rest2 heq =>
    dsimp only at hm
    split_ifs at hm
    have h1 : (rest2.dropWhile isC3).length ≤ rest2.length :=
      (List.dropWhile_sublist _).length_le
    have h2 : (l.dropWhile isC2).length ≤ l.length :=
      (List.dropWhile_sublist _).length_le
    rw [heq] at h2
    simp only [List.length_cons] at h2
    cases hm
    omega
  case _ => cases hm

/-- Leftmost match of `regex_host = @([a-zA-Z0-9-]+\.[a-zA-Z0-9-.]+)`:
`re.findall(regex_host, mail)[0]` when it exists (engine.py line 336). -/
def findHost : List Char → Option String
  | [] => none
  | '@' :: rest =>
    match matchHost rest with
    | some (h, _) => some (String.mk h)
    | none => findHost rest
  | _ :: rest => findHost rest

/-- Model of `re.findall(regex_mail, code)` (engine.py line 329) with
`regex_mail = ([a-zA-Z0-9_.+-]+@[a-zA-Z0-9-]+\.[a-zA-Z0-9-.]+)`:
left-to-right non-overlapping greedy matches.  As for `matchHost`,
backtracking cannot rescue a failed greedy attempt, so the scan below is
exactly Python `re`'s semantics for this pattern. -/
def findMailsAux : Nat → List Char → List String
  | 0, _ => []
  | _, [] => []
  | fuel + 1, c :: rest =>
    if isC1 c then
      match (c :: rest).dropWhile isC1 with
      | '@' :: rest2 =>
        match matchHost rest2 with
        | some (h, rest3) =>
          String.mk ((c :: rest).takeWhile isC1 ++ '@' :: h) :: findMailsAux fuel rest3
        | none => findMailsAux fuel rest
      | _ => findMailsAux fuel rest
    else findMailsAux fuel rest

/-- Entry point with enough fuel: every recursive call of `findMailsAux`
strictly shrinks the scanned list (`matchHost_rest_length` covers the
continue-after-match call), so `l.length` steps always complete the
scan. -/
def findMails (l : List Char) : List String :=
  findMailsAux l.length l

/-- One octet of regex_ip, i.e. the alternative
`[0-9]|[1-9][0-9]|1[0-9]{2}|2[0-4][0-9]|25[0-5]`. -/
def octetOK (s : String) : Bool :=
  match s.data with
  | [a] => a.isDigit
  | [a, b] => decide ('1' ≤ a ∧ a ≤ '9') && b.isDigit
  | [a, b, c] =>
    (decide (a = '1') && b.isDigit && c.isDigit) ||
    (decide (a = '2' ∧ '0' ≤ b ∧ b ≤ '4') && c.isDigit) ||
    decide (a = '2' ∧ b = '5' ∧ '0' ≤ c ∧ c ≤ '5')
  | _ => false

/-- Split on `.` separators (`(octet\.){3}octet` structure). -/
def splitOnDotAux : List Char → List Char → List String
  | [], acc => [String.mk acc.reverse]
  | c :: rest, acc =>
    if c = '.' then String.mk acc.reverse :: splitOnDotAux rest []
    else splitOnDotAux rest (c :: acc)

/-- The dot-separated components of a host string. -/
def splitOnDot (s : String) : List String :=
  splitOnDotAux s.data []

/-- Test `re.match(regex_ip, host) is not None` (engine.py line 346): the host
is a dotted quad of four valid octets, anchored on both sides. -/
def matchIPRegex (host : String) : Bool :=
  match splitOnDot host with
  | [a, b, c, d] => octetOK a && octetOK b && octetOK c && octetOK d
  | _ => false

/-- One address emitted by `Engine._mail`: the lower-cased address, the
host extracted from it, the probe URL built for it and the resolved
title.  `Engine._mail` renders it as `"{mail} {domain} {title}"`. -/
structure MailHit where
  mail : String
  host : String
  domain : String
  title : String
deriving DecidableEq, Repr

/-- Rendering `f"{mail} {domain} {title}"` (engine.py line 379). -/
def renderFrag (e : MailHit) : String :=
  e.mail ++ " " ++ e.domain ++ " " ++ e.title

/-- State of the `Engine._mail` loop: the `mails` dedup list, the emitted
addresses (in order), and — as an event log for the temporal claims — the
URLs for which an outbound `requests.get` probe was issued. -/
structure MailState where
  mails : List String
  emitted : List MailHit
  probes : List String
deriving DecidableEq, Repr

/-- External collaborators and configuration of `Engine._mail`:
`publicMailServices` is `public_mail_services` from `gsil/config.py`
(configuration, not part of the sources); `iptypeOf` is
`IPy.IP(host).iptype()`; `getTld` is `tld.get_tld(host, fix_protocol=True)`
with `none` for its exception path; `fetchTitle` is the whole
`requests.get` + BeautifulSoup title pipeline of engine.py lines 363-375
collapsed to the title it produces for a probed URL. -/
structure MailEnv where
  publicMailServices : List String
  iptypeOf : String → String
  getTld : String → Option String
  fetchTitle : String → String

/-- One iteration of the `for mm in mail_multi` loop of `Engine._mail`
(engine.py lines 330-380).  `none` models the uncaught IndexError of
`host[0]` when `regex_host` finds nothing in the address. -/
def mailStep (env : MailEnv) (st : MailState) (mm : String) : Option MailState :=
  let mail := pyLower (pyStrip mm)
  if mail ∈ st.mails then some st
  else
    match findHost mail.data with
    | none => none
    | some h =>
      let host := pyStrip h
      if host ∈ env.publicMailServices then some st
      else
        let st := { st with mails := st.mails ++ [mail] }
        if matchIPRegex host = false then
          let topDomain := (env.getTld host).getD host
          let domain :=
            if topDomain = host then "http://www." ++ host else "http://" ++ host
          some { st with
                  probes := st.probes ++ [domain],
                  emitted := st.emitted ++ [⟨mail, host, domain, env.fetchTitle domain⟩] }
        else
          if env.iptypeOf host = "PRIVATE" then
            some { st with
                    emitted := st.emitted ++ [⟨mail, host, "http://" ++ host, "<Inner IP>"⟩] }
          else
            let domain := "http://" ++ host
            some { st with
                    probes := st.probes ++ [domain],
                    emitted := st.emitted ++ [⟨mail, host, domain, env.fetchTitle domain⟩] }

/-- The `Engine._mail` loop over the extracted candidates. -/
def mailRunAux (env : MailEnv) : MailState → List String → Option MailState
  | st, [] => some st
  | st, mm :: rest =>
    match mailStep env st mm with
    | none => none
    | some st2 => mailRunAux env st2 rest

/-- Model of `Engine._mail` run on the addresses extracted from the (already
`<img`-stripped) code. -/
def mailRun (env : MailEnv) (cands : List String) : Option MailState :=
  mailRunAux env ⟨[], [], []⟩ cands

/-! ## Engine.codes -/

/-- Model of `Engine.codes` (engine.py lines 244-303): strip `<img`, split into
lines, resolve keywords, dispatch on the rule's mode string.  mail mode
returns the rendered `_mail` fragments (`none` on `_mail`'s uncaught
exception path). -/
def codesFn (env : MailEnv) (rule : Rule) (code : String) : Option (List String) :=
  let code := pyReplaceImg code
  let codes := pySplitlines code
  let keywords := keywordsOf rule.keyword
  if rule.mode = "mail" then
    (mailRun env (findMails code.data)).map (fun st => st.emitted.map renderFrag)
  else if rule.mode = "only-match" then some (onlyMatch codes keywords)
  else if rule.mode = "normal-match" then some (normalMatch codes keywords)
  else some (codes.take 20)

/-! ## Engine.process_pages / Engine.search -/

/-- Constants of engine.py lines 35 and 38. -/
def perPage : Nat := 50

/-- Constant `default_pages` (engine.py line 38). -/
def defaultPages : Nat := 4

/-- One GitHub search hit as `process_pages` reads it.  `sha?` is `none`
when `content.sha` raises (engine.py lines 88-93); `decoded?` is `none`
when `content.decoded_content.decode('utf-8')` raises (lines 111-115). -/
structure Hit where
  html_url : String
  sha? : Option String
  path : String
  full_name : String
  repo_html_url : String
  decoded? : Option String
deriving DecidableEq, Repr

/-- The scan-result dictionary built at engine.py lines 124-131. -/
structure ScanResult where
  url : String
  match_codes : List String
  hash : String
  code : String
  repository : String
  path : String
deriving DecidableEq, Repr

/-- Mutable per-rule state of the engine: the two counters, the two
per-page result maps (dictionaries keyed by `current_i`, modelled as
append-only association lists — `current_i` is strictly increasing inside
a page), and — as an event log — the `clone(git_url, sha)` calls. -/
structure PState where
  processedCount : Nat
  nextCount : Nat
  result : List (Nat × ScanResult)
  excludeResult : List (Nat × ScanResult)
  clones : List (String × String)
deriving DecidableEq, Repr

/-- External collaborators and configuration of the per-hit pipeline:
`classify` is `self.codes()` on the decoded text (modelled in full by
`codesFn`; kept as a parameter here so the coordinator theorems hold for
every classifier outcome including mail mode's network-dependent one);
`excludeRepo` is the `exclude_repository_rules` regex bank of
`gsil/config.py` applied to the lower-cased `full_name/path`;
`excludeCodes` is the `exclude_codes_rules` regex bank applied to the
joined fragments (both banks are configuration, not in the sources). -/
structure PageEnv where
  classify : String → List String
  excludeRepo : String → Bool
  excludeCodes : List String → Bool

/-- The body of the `for index, content in enumerate(pages_content)` loop
of `Engine.process_pages` after the early-abort check (engine.py lines
84-143): resolve sha (an exception clears sha and url), dedup-skip,
repository-path exclusion, decode, classify, build the result, route it
into `result` or `exclude_result`, trigger the clone, bump `next_count`.
The stored `code` field is `self.code` *after* `Engine.codes` replaced
`<img` away (line 250 mutates `self.code` before line 128 reads it). -/
def processOneHit (env : PageEnv) (hashList : List String) (currentI : Nat)
    (content : Hit) (st : PState) : PState :=
  let url := content.html_url
  let shaUrl : String × String :=
    match content.sha? with
    | some s => (s, url)
    | none => ("", "")
  let sha := shaUrl.1
  let url := shaUrl.2
  if sha ∈ hashList then { st with processedCount := st.processedCount + 1 }
  else
    let path := content.path
    let fullName := pyStrip content.full_name
    if env.excludeRepo (pyLower fullName ++ "/" ++ pyLower path) then st
    else
      match content.decoded? with
      | none => st
      | some code =>
        let matchCodes := env.classify code
        if matchCodes.length = 0 then st
        else
          let res : ScanResult :=
            ⟨url, matchCodes, sha, pyReplaceImg code, fullName, path⟩
          let st :=
            if env.excludeCodes matchCodes then
              { st with excludeResult := st.excludeResult ++ [(currentI, res)] }
            else
              { st with result := st.result ++ [(currentI, res)] }
          let st := { st with clones := st.clones ++ [(content.repo_html_url, sha)] }
          { st with nextCount := st.nextCount + 1 }

/-- Model of `Engine.process_pages` (engine.py lines 66-145): iterate the page's
hits; before each hit, if `next_count == 0 and processed_count > 3`,
return `False` (skip the whole rule); otherwise run the per-hit pipeline
and continue; return `True` at the end of the page. -/
def processHits (env : PageEnv) (hashList : List String) (page : Nat) :
    List Hit → Nat → PState → Bool × PState
  | [], _, st => (true, st)
  | content :: rest, index, st =>
    if st.nextCount = 0 ∧ st.processedCount > 3 then (false, st)
    else
      processHits env hashList page rest (index + 1)
        (processOneHit env hashList (page * perPage + index) content st)

/-- Model of `self.result = ...` and `self.exclude_result = ...` (empty dicts) at the top of each
page iteration (engine.py lines 218-219). -/
def resetMaps (st : PState) : PState :=
  { st with result := [], excludeResult := [] }

/-- Outcome of `resource.get_page(page)` (engine.py lines 220-229):
a page of hits, a `socket.timeout` (skip the page), or a
`GithubException` (fail the rule). -/
inductive Fetch
  | ok (hits : List Hit)
  | timeout
  | err
deriving DecidableEq, Repr

/-- The page loop of `Engine.search` (engine.py lines 217-242).  For each
page: reset both result maps, fetch (timeout skips the page, an API error
returns failure = `none`), run `process_pages`; on `True` flush
`self.result` to the reporting collaborator (`Process(...).process()`,
recorded in the flush log) and continue; on `False` break.  After the
loop the rule returns success with `len(self.result)`. -/
def searchLoop (env : PageEnv) (hashList : List String) :
    Nat → PState → List (List (Nat × ScanResult)) → List Fetch →
    Option (Nat × List (List (Nat × ScanResult)) × PState)
  | _, cur, flushes, [] => some (cur.result.length, flushes, cur)
  | page, cur, flushes, f :: rest =>
    let cur := resetMaps cur
    match f with
    | Fetch.timeout => searchLoop env hashList (page + 1) cur flushes rest
    | Fetch.err => none
    | Fetch.ok hits =>
      match processHits env hashList page hits 0 cur with
      | (true, st) => searchLoop env hashList (page + 1) st (flushes ++ [st.result]) rest
      | (false, st) => some (st.result.length, flushes, st)

/-- Model of the `Engine.search` page-processing phase for one rule: counters start
at zero (engine.py lines 167-168) and the page loop runs over the fetch
outcomes (the source always computes at least one page). -/
def searchModel (env : PageEnv) (hashList : List String) (fetches : List Fetch) :
    Option (Nat × List (List (Nat × ScanResult)) × PState) :=
  searchLoop env hashList 0 ⟨0, 0, [], [], []⟩ [] fetches

/-! ## Concrete fixtures for witnesses and counterexamples -/

/-- A mail environment whose collaborators are all trivial; non-mail
modes never consult it. -/
def envTriv : MailEnv :=
  ⟨[], fun _ => "PUBLIC", fun _ => none, fun _ => "<Unknown>"⟩

/-- A mail environment classifying `10.0.0.1` as a private address, as
`IPy` does. -/
def envMailC7 : MailEnv :=
  ⟨["gmail.com"], fun h => if h = "10.0.0.1" then "PRIVATE" else "PUBLIC",
   fun _ => none, fun _ => "T"⟩

/-- A mail environment with one (lower-case) public mail service. -/
def envMailC8 : MailEnv :=
  ⟨["gmail.com"], fun _ => "PUBLIC", fun _ => none, fun _ => "T"⟩

/-- The rule `password` in normal-match mode. -/
def ruleNM : Rule := ⟨"password", "normal-match", none⟩

/-- The rule `password` in only-match mode. -/
def ruleOM : Rule := ⟨"password", "only-match", none⟩

/-- A page environment whose classifier matches nothing. -/
def envPage0 : PageEnv := ⟨fun _ => [], fun _ => false, fun _ => false⟩

/-- A page environment whose classifier always produces one fragment. -/
def envPageX : PageEnv := ⟨fun _ => ["x"], fun _ => false, fun _ => false⟩

/-- A page environment whose classifier is `Engine.codes` for an
only-match rule with keyword `key` (via `codesFn`, which is total on
non-mail modes). -/
def envPageKey : PageEnv :=
  ⟨fun c => (codesFn envTriv ⟨"key", "only-match", none⟩ c).getD [],
   fun _ => false, fun _ => false⟩

/-- A hit with the given sha and trivial other fields. -/
def hitSha (s : String) : Hit := ⟨"u", some s, "p", "o/r", "g", some "code"⟩

/-- Hash list containing the shas of `hitSha "s1"` … `hitSha "s5"`. -/
def hlFive : List String := ["s1", "s2", "s3", "s4", "s5"]

/-- A page of four already-processed hits. -/
def pageFour : List Hit := [hitSha "s1", hitSha "s2", hitSha "s3", hitSha "s4"]

/-- A fresh hit whose decoded text contains `<img`. -/
def hitImg : Hit := ⟨"http://u", some "sh", "p.py", "o/r", "http://g", some "key<img=1\n"⟩

/-- A fresh hit that produces a confirmed result under `envPageX`. -/
def hitNew : Hit := ⟨"http://u1", some "a1", "p1", "o/r", "http://g1", some "c1"⟩

/-- The scan result `envPageX` builds for `hitNew` at index 0. -/
def resNew : ScanResult := ⟨"http://u1", ["x"], "a1", "c1", "o/r", "p1"⟩

/-- The engine state after `hitNew` was processed from the zero state. -/
def stNew : PState := ⟨0, 1, [(0, resNew)], [], [("http://g1", "a1")]⟩

/-- The mail state after running `_mail` on
`"a@gmail.com b@corp.example"` under `envMailC8`. -/
def mailC8St : MailState :=
  ⟨["b@corp.example"],
   [⟨"b@corp.example", "corp.example", "http://www.corp.example", "T"⟩],
   ["http://www.corp.example"]⟩

/-! ## Lemmas: only-match mode -/

theorem onlyMatch_inner (line : String) (kws acc : List String) :
    kws.foldl (fun a kw => if pyIn kw line then a ++ [line] else a) acc
      = acc ++ (kws.filter (fun kw => pyIn kw line)).map (fun _ => line) := by
  induction kws generalizing acc with
  | nil => simp
  | cons k ks ih =>
    simp only [List.foldl_cons, List.filter_cons]
    by_cases h : pyIn k line
    · simp [h, ih]
    · simp [h, ih]

theorem onlyMatch_foldl (codes kws acc : List String) :
    codes.foldl
        (fun a code =>
          kws.foldl (fun a2 kw => if pyIn kw code then a2 ++ [code] else a2) a)
        acc
      = acc ++ onlyMatchSpec codes kws := by
  induction codes generalizing acc with
  | nil => simp [onlyMatchSpec]
  | cons c cs ih =>
    simp only [List.foldl_cons, onlyMatchSpec, List.flatMap_cons]
    rw [onlyMatch_inner, ih]
    simp [onlyMatchSpec]

theorem onlyMatch_eq_spec (codes kws : List String) :
    onlyMatch codes kws = onlyMatchSpec codes kws := by
  unfold onlyMatch
  rw [onlyMatch_foldl]
  simp

/-- C9: in only-match mode, `Engine.codes` emits exactly the lines of the
(`<img`-stripped) code that contain a resolved keyword as a substring, in
original line order, one entry per (line, keyword) match event; on the
single line `db_password=123` with keyword `password` the result is
exactly `["db_password=123"]`. -/
theorem gsil_C9_only_match :
    (∀ (env : MailEnv) (rule : Rule) (code : String), rule.mode = "only-match" →
        codesFn env rule code
          = some (onlyMatchSpec (pySplitlines (pyReplaceImg code))
                    (keywordsOf rule.keyword))) ∧
    codesFn envTriv ruleOM "db_password=123" = some ["db_password=123"] := by
  constructor
  · intro env rule code hm
    simp [codesFn, hm, onlyMatch_eq_spec]
  · decide

/-- Witness for C9 at the claim's concrete input. -/
theorem gsil_C9_witness :
    codesFn envTriv ruleOM "db_password=123"
      = some (onlyMatchSpec (pySplitlines (pyReplaceImg "db_password=123"))
                (keywordsOf "password")) :=
  gsil_C9_only_match.1 envTriv ruleOM "db_password=123" rfl

/-! ## Lemmas: the `<img` replacement -/

theorem replaceImgAux_cons (c : Char) (rest : List Char) :
    replaceImgAux (c :: rest) =
      if "<img".data.isPrefixOf (c :: rest) = true then replaceImgAux (rest.drop 3)
      else c :: replaceImgAux rest := by
  have hpat : "<img".data = ['<', 'i', 'm', 'g'] := rfl
  by_cases hc : c = '<'
  · subst hc
    rcases rest with _ | ⟨c1, rest1⟩
    · simp [replaceImgAux, hpat, List.isPrefixOf]
    · by_cases h1 : c1 = 'i'
      · subst h1
        rcases rest1 with _ | ⟨c2, rest2⟩
        · simp [replaceImgAux, hpat, List.isPrefixOf]
        · by_cases h2 : c2 = 'm'
          · subst h2
            rcases rest2 with _ | ⟨c3, rest3⟩
            · simp [replaceImgAux, hpat, List.isPrefixOf]
            · by_cases h3 : c3 = 'g'
              · subst h3
                simp [replaceImgAux, hpat, List.isPrefixOf]
              · have h3' : ¬ ('g' = c3) := fun h => h3 h.symm
                simp [replaceImgAux, hpat, List.isPrefixOf, h3, h3']
          · have h2' : ∀ q : Prop, ¬ ('m' = c2 ∧ q) := fun _ h => h2 h.1.symm
            simp [replaceImgAux, hpat, List.isPrefixOf, h2, h2']
      · have h1' : ∀ q : Prop, ¬ ('i' = c1 ∧ q) := fun _ h => h1 h.1.symm
        simp [replaceImgAux, hpat, List.isPrefixOf, h1, h1']
  · have hc' : ∀ q : Prop, ¬ ('<' = c ∧ q) := fun _ h => hc h.1.symm
    simp [replaceImgAux, hpat, List.isPrefixOf, hc, hc']

theorem replaceImgAux_length : ∀ (n : Nat) (l : List Char), l.length ≤ n →
    (replaceImgAux l).length ≤ l.length := by
  intro n
  induction n with
  | zero =>
    intro l hl
    have h : l = [] := by cases l <;> simp_all
    subst h
    simp [replaceImgAux]
  | succ n ih =>
    intro l hl
    rcases l with _ | ⟨c, rest⟩
    · simp [replaceImgAux]
    · simp only [List.length_cons] at hl
      rw [replaceImgAux_cons]
      split_ifs with hp
      · have h1 := ih (rest.drop 3) (by simp only [List.length_drop]; omega)
        simp only [List.length_drop, List.length_cons] at h1 ⊢
        omega
      · have h1 := ih rest (by omega)
        simp only [List.length_cons]
        omega

theorem replaceImgAux_eq_iff : ∀ (n : Nat) (l : List Char), l.length ≤ n →
    ((replaceImgAux l = l) ↔ occursIn "<img".data l = false) := by
  intro n
  induction n with
  | zero =>
    intro l hl
    have h : l = [] := by cases l <;> simp_all
    subst h
    simp [replaceImgAux, occursIn]
  | succ n ih =>
    intro l hl
    rcases l with _ | ⟨c, rest⟩
    · simp [replaceImgAux, occursIn]
    · simp only [List.length_cons] at hl
      rw [replaceImgAux_cons, occursIn]
      split_ifs with hp
      · rw [hp]
        simp only [Bool.true_or]
        constructor
        · intro h
          exfalso
          have h1 := congrArg List.length h
          have h2 := replaceImgAux_length (rest.drop 3).length (rest.drop 3) le_rfl
          simp only [List.length_drop, List.length_cons] at h1 h2
          omega
        · intro h
          cases h
      · have hp' : "<img".data.isPrefixOf (c :: rest) = false := by
          rwa [Bool.not_eq_true] at hp
        rw [hp']
        simp only [Bool.false_or, List.cons.injEq, true_and]
        exact ih rest (by omega)

theorem pyReplaceImg_eq_iff (s : String) :
    pyReplaceImg s = s ↔ pyIn "<img" s = false := by
  unfold pyReplaceImg pyIn
  have hmk : String.mk (replaceImgAux s.data) = s ↔ replaceImgAux s.data = s.data := by
    constructor
    · intro h
      exact congrArg String.data h
    · intro h
      rw [h]
  rw [hmk]
  exact replaceImgAux_eq_iff s.data.length s.data le_rfl

/-! ## Per-hit pipeline: dedup skip and result construction -/

/-- C5: a hit whose (non-empty) sha is in the supplied hash set is skipped
with `processed_count` incremented by exactly one and no other state
change: it enters neither `result` nor `exclude_result`, no clone is
triggered, `next_count` is unchanged (engine.py lines 96-99). -/
theorem gsil_C5_dedup_skip (env : PageEnv) (hashList : List String) (currentI : Nat)
    (content : Hit) (st : PState) (s : String)
    (hsha : content.sha? = some s) (hne : s ≠ "") (hmem : s ∈ hashList) :
    processOneHit env hashList currentI content st
      = { st with processedCount := st.processedCount + 1 } := by
  unfold processOneHit
  rw [hsha]
  simp [hmem]

/-- Witness for C5: the dedup skip on a concrete hit. -/
theorem gsil_C5_witness :
    processOneHit envPage0 ["s1"] 0 (hitSha "s1") ⟨0, 0, [], [], []⟩
      = ⟨1, 0, [], [], []⟩ :=
  gsil_C5_dedup_skip envPage0 ["s1"] 0 (hitSha "s1") ⟨0, 0, [], [], []⟩ "s1"
    rfl (by decide) (by decide)

/-- C6 counterexample: a hit whose decoded text is `key<img=1\n` (matched
by an only-match rule with keyword `key`) is stored with
`code = "key=1\n"`, not with the original decoded text — `Engine.codes`
(line 250) mutates `self.code` before `process_pages` (line 128) copies it
into the result. -/
theorem gsil_C6_counterexample :
    ((processOneHit envPageKey [] 0 hitImg ⟨0, 0, [], [], []⟩).result.map
        (fun p => p.2.code)) = ["key=1\n"] ∧
    ¬ ("key=1\n" = "key<img=1\n") := by
  constructor
  · decide
  · decide

/-- C6 (amended): a hit reaching the confirmed-result path stores
`code = pyReplaceImg (decoded text)` — the decoded text with every `<img`
occurrence removed — together with the other fields of engine.py lines
124-131; and the stored text equals the original decoded text exactly
when that text contains no `<img`. -/
theorem gsil_C6_code_field (env : PageEnv) (hashList : List String) (currentI : Nat)
    (content : Hit) (st : PState) (s code : String)
    (hsha : content.sha? = some s) (hmem : s ∉ hashList)
    (hrepo : env.excludeRepo
        (pyLower (pyStrip content.full_name) ++ "/" ++ pyLower content.path) = false)
    (hdec : content.decoded? = some code)
    (hlen : (env.classify code).length ≠ 0)
    (hexc : env.excludeCodes (env.classify code) = false) :
    processOneHit env hashList currentI content st
      = { st with
            result := st.result ++
              [(currentI, ⟨content.html_url, env.classify code, s, pyReplaceImg code,
                           pyStrip content.full_name, content.path⟩)],
            clones := st.clones ++ [(content.repo_html_url, s)],
            nextCount := st.nextCount + 1 } ∧
    ∀ c : String, (pyReplaceImg c = c ↔ pyIn "<img" c = false) := by
  constructor
  · unfold processOneHit
    rw [hsha]
    simp [hmem, hrepo, hdec, hlen, hexc]
  · exact pyReplaceImg_eq_iff

/-- Witness for C6 (amended) on a concrete hit containing `<img`. -/
theorem gsil_C6_witness :
    processOneHit envPageKey [] 0 hitImg ⟨0, 0, [], [], []⟩
      = { processedCount := 0, nextCount := 1,
          result := [(0, ⟨"http://u", ["key=1"], "sh", "key=1\n", "o/r", "p.py"⟩)],
          excludeResult := [], clones := [("http://g", "sh")] } :=
  (gsil_C6_code_field envPageKey [] 0 hitImg ⟨0, 0, [], [], []⟩ "sh" "key<img=1\n"
    rfl (by decide) (by decide) rfl (by decide) (by decide)).1

/-! ## Mail resolver -/

/-- C7: for an address whose host is a dotted-quad IP literal classified
as `PRIVATE`, `Engine._mail` issues no outbound probe (the probe log is
unchanged) and emits the address with the `<Inner IP>` title marker
(engine.py lines 356-377). -/
theorem gsil_C7_private_ip (env : MailEnv) (st : MailState) (mm h : String)
    (hdup : pyLower (pyStrip mm) ∉ st.mails)
    (hfind : findHost (pyLower (pyStrip mm)).data = some h)
    (hpub : pyStrip h ∉ env.publicMailServices)
    (hip : matchIPRegex (pyStrip h) = true)
    (hpriv : env.iptypeOf (pyStrip h) = "PRIVATE") :
    mailStep env st mm = some
      { st with
          mails := st.mails ++ [pyLower (pyStrip mm)],
          emitted := st.emitted ++
            [⟨pyLower (pyStrip mm), pyStrip h, "http://" ++ pyStrip h, "<Inner IP>"⟩] } := by
  unfold mailStep
  rw [if_neg hdup, hfind]
  simp only []
  rw [if_neg hpub]
  simp [hip, hpriv]

/-- Witness for C7: `root@10.0.0.1` under an environment classifying
`10.0.0.1` as private is emitted as `<Inner IP>` with an empty probe
log. -/
theorem gsil_C7_witness :
    mailStep envMailC7 ⟨[], [], []⟩ "root@10.0.0.1" = some
      ⟨["root@10.0.0.1"],
       [⟨"root@10.0.0.1", "10.0.0.1", "http://10.0.0.1", "<Inner IP>"⟩],
       []⟩ :=
  gsil_C7_private_ip envMailC7 ⟨[], [], []⟩ "root@10.0.0.1" "10.0.0.1"
    (by decide) (by decide) (by decide) (by decide) (by decide)

theorem mailStep_emitted (env : MailEnv) (st st2 : MailState) (mm : String)
    (h : mailStep env st mm = some st2) :
    ∀ e ∈ st2.emitted, e ∈ st.emitted ∨ e.host ∉ env.publicMailServices := by
  simp only [mailStep] at h
  split_ifs at h with h1
  · cases h
    exact fun e he => Or.inl he
  · rcases hf : findHost (pyLower (pyStrip mm)).data with _ | hh <;> rw [hf] at h
    · cases h
    · dsimp only at h
      split_ifs at h with h2 h3 h4
      · cases h
        exact fun e he => Or.inl he
      all_goals
        cases h
        intro e he
        simp only [List.mem_append, List.mem_singleton] at he
        rcases he with he | he
        · exact Or.inl he
        · subst he
          exact Or.inr h2

theorem mailRunAux_emitted (env : MailEnv) :
    ∀ (cands : List String) (st stF : MailState),
      mailRunAux env st cands = some stF →
      ∀ e ∈ stF.emitted, e ∈ st.emitted ∨ e.host ∉ env.publicMailServices := by
  intro cands
  induction cands with
  | nil =>
    intro st stF h
    cases h
    exact fun e he => Or.inl he
  | cons mm rest ih =>
    intro st stF h
    unfold mailRunAux at h
    rcases hms : mailStep env st mm with _ | st2 <;> rw [hms] at h
    · cases h
    · intro e he
      rcases ih st2 stF h e he with h2 | h2
      · exact mailStep_emitted env st st2 mm hms e h2
      · exact Or.inr h2

/-- C8: under a (lower-case) configured public-mail-service list, no
address emitted by `Engine._mail` on any input code has a host on the
list, in any case variation: the address is lower-cased before the host
membership test (engine.py lines 331-341), so every case variant of a
listed host is filtered. -/
theorem gsil_C8_public_filtered (env : MailEnv)
    (hlow : ∀ p ∈ env.publicMailServices, pyLower p = p)
    (code : String) (stF : MailState)
    (hrun : mailRun env (findMails (pyReplaceImg code).data) = some stF) :
    ∀ e ∈ stF.emitted, ∀ h : String, pyLower h = e.host →
      h ∉ env.publicMailServices := by
  intro e he h hl hmem
  have h1 : e.host ∉ env.publicMailServices := by
    rcases mailRunAux_emitted env _ _ _ hrun e he with h2 | h2
    · simp at h2
    · exact h2
  have h3 : pyLower h = h := hlow h hmem
  rw [hl] at h3
  rw [← h3] at hmem
  exact h1 hmem

/-- Witness for C8: running `_mail` on `a@gmail.com b@corp.example` with
`gmail.com` configured public; the emitted address's host is not on the
list in any casing. -/
theorem gsil_C8_witness : "CORP.example" ∉ envMailC8.publicMailServices :=
  gsil_C8_public_filtered envMailC8 (by decide) "a@gmail.com b@corp.example" mailC8St
    (by decide)
    ⟨"b@corp.example", "corp.example", "http://www.corp.example", "T"⟩
    (by decide) "CORP.example" (by decide)

/-! ## Normal-match window lemmas -/

theorem prevStep_pairs (codes : List String) (idx i : Int) (st : WinState) :
    ∀ p ∈ (prevStep codes idx st i).pairs,
      p ∈ st.pairs ∨
        (p.1 = idx + i ∧ 0 ≤ p.1 ∧ pyIsBlank (codes.getD p.1.toNat "") = false ∧
          p.2 = codes.getD p.1.toNat "") := by
  intro p hp
  simp only [prevStep] at hp
  split_ifs at hp with h1 h2 h3
  · exact Or.inl hp
  · exact Or.inl hp
  · exact Or.inl hp
  · simp only [List.mem_append, List.mem_singleton] at hp
    rcases hp with hp | hp
    · exact Or.inl hp
    · subst hp
      refine Or.inr ⟨rfl, by omega, ?_, rfl⟩
      rwa [Bool.not_eq_true] at h3

theorem nextStep_pairs (codes : List String) (idx i : Int) (st : WinState) :
    ∀ p ∈ (nextStep codes idx st i).pairs,
      p ∈ st.pairs ∨
        (p.1 = idx + i ∧ p.1 < (codes.length : Int) ∧
          pyIsBlank (codes.getD p.1.toNat "") = false ∧
          p.2 = codes.getD p.1.toNat "") := by
  intro p hp
  simp only [nextStep] at hp
  split_ifs at hp with h1 h2 h3
  · exact Or.inl hp
  · exact Or.inl hp
  · exact Or.inl hp
  · simp only [List.mem_append, List.mem_singleton] at hp
    rcases hp with hp | hp
    · exact Or.inl hp
    · subst hp
      refine Or.inr ⟨rfl, by omega, ?_, rfl⟩
      rwa [Bool.not_eq_true] at h3

theorem prevStep_idxs (codes : List String) (idx i : Int) (st : WinState) :
    ∀ j ∈ (prevStep codes idx st i).idxs, j ∈ st.idxs ∨ j = idx + i := by
  intro j hj
  simp only [prevStep] at hj
  split_ifs at hj
  · exact Or.inl hj
  · exact Or.inl hj
  · exact Or.inl hj
  · simp only [List.mem_append, List.mem_singleton] at hj
    exact hj

theorem prevStep_nodup (codes : List String) (idx i : Int) (st : WinState)
    (h : st.idxs.Nodup) : (prevStep codes idx st i).idxs.Nodup := by
  simp only [prevStep]
  split_ifs with h1 h2 h3
  · exact h
  · exact h
  · exact h
  · simp [List.nodup_append, h, h1]

theorem prevStep_fst (codes : List String) (idx i : Int) (st : WinState)
    (h : st.pairs.map Prod.fst = st.idxs) :
    (prevStep codes idx st i).pairs.map Prod.fst = (prevStep codes idx st i).idxs := by
  simp only [prevStep]
  split_ifs with h1 h2 h3
  · exact h
  · exact h
  · exact h
  · simp [h]

/-- The invariant carried through the `range(1, 4)` loop: the emitted
indices are distinct, each is either recorded in `idxs` or is the trigger
index, and the trigger index is not recorded in `idxs`. -/
def winInv (idx : Int) (st : WinState) : Prop :=
  (st.pairs.map Prod.fst).Nodup ∧
  (∀ j ∈ st.pairs.map Prod.fst, j ∈ st.idxs ∨ j = idx) ∧
  idx ∉ st.idxs ∧ st.idxs.Nodup

theorem nextStep_winInv (codes : List String) (idx i : Int) (st : WinState)
    (hi : 0 < i) (h : winInv idx st) : winInv idx (nextStep codes idx st i) := by
  obtain ⟨h1, h2, h3, h4⟩ := h
  simp only [nextStep, winInv]
  split_ifs with g1 g2 g3
  · exact ⟨h1, h2, h3, h4⟩
  · exact ⟨h1, h2, h3, h4⟩
  · exact ⟨h1, h2, h3, h4⟩
  · refine ⟨?_, ?_, ?_, ?_⟩
    · simp only [List.map_append, List.map_cons, List.map_nil]
      rw [List.nodup_append]
      refine ⟨h1, List.nodup_singleton _, ?_⟩
      intro j hj hj2
      simp only [List.mem_singleton] at hj2
      subst hj2
      rcases h2 _ hj with hm | hm
      · exact g1 hm
      · omega
    · intro j hj
      simp only [List.map_append, List.map_cons, List.map_nil, List.mem_append,
        List.mem_singleton] at hj
      rcases hj with hj | hj
      · rcases h2 j hj with hm | hm
        · exact Or.inl (List.mem_append_left _ hm)
        · exact Or.inr hm
      · subst hj
        exact Or.inl (List.mem_append_right _ (List.mem_singleton.mpr rfl))
    · simp only [List.mem_append, List.mem_singleton]
      push_neg
      exact ⟨h3, by omega⟩
    · simp [List.nodup_append, h4, g1]

/-- C1 (amended): in normal-match mode, index deduplication applies only
within the window emitted for a single trigger line: `idxs` is reset per
trigger (engine.py line 271), and inside one trigger's window every line
index appears at most once (across distinct triggers of the same hit,
indices can repeat — see the counterexample). -/
theorem gsil_C1_window_nodup (codes : List String) (idx : Int) :
    ((triggerWindowPairs codes idx).map Prod.fst).Nodup := by
  unfold triggerWindowPairs
  dsimp only
  have hfold : List.foldl (prevStep codes idx) ⟨[], []⟩ [-3, -2, -1]
      = prevStep codes idx (prevStep codes idx (prevStep codes idx ⟨[], []⟩ (-3)) (-2)) (-1) := rfl
  rw [hfold]
  set stA := prevStep codes idx ⟨[], []⟩ (-3) with hA
  set stB := prevStep codes idx stA (-2) with hB
  set st1 := prevStep codes idx stB (-1) with h1
  have hlt : ∀ j ∈ st1.idxs, j < idx := by
    intro j hj
    rcases prevStep_idxs codes idx (-1) stB j hj with hj2 | hj2
    · rcases prevStep_idxs codes idx (-2) stA j hj2 with hj3 | hj3
      · rcases prevStep_idxs codes idx (-3) ⟨[], []⟩ j hj3 with hj4 | hj4
        · simp at hj4
        · omega
      · omega
    · omega
  have hnd1 : st1.idxs.Nodup :=
    prevStep_nodup codes idx (-1) stB
      (prevStep_nodup codes idx (-2) stA
        (prevStep_nodup codes idx (-3) ⟨[], []⟩ List.nodup_nil))
  have hfst1 : st1.pairs.map Prod.fst = st1.idxs :=
    prevStep_fst codes idx (-1) stB
      (prevStep_fst codes idx (-2) stA
        (prevStep_fst codes idx (-3) ⟨[], []⟩ rfl))
  have hidx : idx ∉ st1.idxs := fun hm => absurd (hlt idx hm) (by omega)
  rw [if_neg hidx]
  have hQ2 : winInv idx ⟨st1.idxs, st1.pairs ++ [(idx, codes.getD idx.toNat "")]⟩ := by
    refine ⟨?_, ?_, hidx, hnd1⟩
    · simp only [List.map_append, List.map_cons, List.map_nil]
      rw [List.nodup_append, hfst1]
      exact ⟨hnd1, List.nodup_singleton _, by
        intro j hj hj2
        simp only [List.mem_singleton] at hj2
        subst hj2
        exact hidx hj⟩
    · intro j hj
      simp only [List.map_append, List.map_cons, List.map_nil, List.mem_append,
        List.mem_singleton] at hj
      rcases hj with hj | hj
      · rw [hfst1] at hj
        exact Or.inl hj
      · exact Or.inr hj
  have hfold2 : ∀ st : WinState, List.foldl (nextStep codes idx) st [1, 2, 3]
      = nextStep codes idx (nextStep codes idx (nextStep codes idx st 1) 2) 3 := fun _ => rfl
  rw [hfold2]
  have hQ3 := nextStep_winInv codes idx 3 _ (by omega)
    (nextStep_winInv codes idx 2 _ (by omega)
      (nextStep_winInv codes idx 1 _ (by omega) hQ2))
  exact hQ3.1

/-- C2 (amended): in normal-match mode, blank lines inside the 3-line
span around a trigger are omitted from the emitted window, but the window
still never extends more than 3 physical lines from the trigger (the
`range(-3, -0)` / `range(1, 4)` bounds of engine.py lines 273 and 289
count blank lines too); every emitted index is in bounds and every
emitted non-trigger line is non-blank. -/
theorem gsil_C2_window_bounds (codes : List String) (idx : Int)
    (h0 : 0 ≤ idx) (hlen : idx < (codes.length : Int)) :
    ∀ p ∈ triggerWindowPairs codes idx,
      idx - 3 ≤ p.1 ∧ p.1 ≤ idx + 3 ∧ 0 ≤ p.1 ∧ p.1 < (codes.length : Int) ∧
      (p.1 ≠ idx → pyIsBlank p.2 = false) ∧ p.2 = codes.getD p.1.toNat "" := by
  unfold triggerWindowPairs
  dsimp only
  have hfold : List.foldl (prevStep codes idx) ⟨[], []⟩ [-3, -2, -1]
      = prevStep codes idx (prevStep codes idx (prevStep codes idx ⟨[], []⟩ (-3)) (-2)) (-1) := rfl
  rw [hfold]
  set stA := prevStep codes idx ⟨[], []⟩ (-3) with hA
  set stB := prevStep codes idx stA (-2) with hB
  set st1 := prevStep codes idx stB (-1) with h1
  have hprev : ∀ p ∈ st1.pairs,
      (idx - 3 ≤ p.1 ∧ p.1 < idx ∧ 0 ≤ p.1 ∧
        pyIsBlank (codes.getD p.1.toNat "") = false ∧ p.2 = codes.getD p.1.toNat "") := by
    intro p hp
    rcases prevStep_pairs codes idx (-1) stB p hp with hp2 | hp2
    · rcases prevStep_pairs codes idx (-2) stA p hp2 with hp3 | hp3
      · rcases prevStep_pairs codes idx (-3) ⟨[], []⟩ p hp3 with hp4 | hp4
        · simp at hp4
        · exact ⟨by omega, by omega, hp4.2.1, hp4.2.2.1, hp4.2.2.2⟩
      · exact ⟨by omega, by omega, hp3.2.1, hp3.2.2.1, hp3.2.2.2⟩
    · exact ⟨by omega, by omega, hp2.2.1, hp2.2.2.1, hp2.2.2.2⟩
  set st2 := if idx ∈ st1.idxs then st1
    else WinState.mk st1.idxs (st1.pairs ++ [(idx, codes.getD idx.toNat "")]) with h2
  have hcur : ∀ p ∈ st2.pairs,
      p ∈ st1.pairs ∨ (p.1 = idx ∧ p.2 = codes.getD p.1.toNat "") := by
    intro p hp
    rw [h2] at hp
    split_ifs at hp
    · exact Or.inl hp
    · simp only [List.mem_append, List.mem_singleton] at hp
      rcases hp with hp | hp
      · exact Or.inl hp
      · subst hp
        exact Or.inr ⟨rfl, rfl⟩
  have hfold2 : ∀ st : WinState, List.foldl (nextStep codes idx) st [1, 2, 3]
      = nextStep codes idx (nextStep codes idx (nextStep codes idx st 1) 2) 3 := fun _ => rfl
  rw [hfold2]
  intro p hp
  have hnext : p ∈ st2.pairs ∨
      (idx < p.1 ∧ p.1 ≤ idx + 3 ∧ p.1 < (codes.length : Int) ∧
        pyIsBlank (codes.getD p.1.toNat "") = false ∧ p.2 = codes.getD p.1.toNat "") := by
    rcases nextStep_pairs codes idx 3 _ p hp with hp2 | hp2
    · rcases nextStep_pairs codes idx 2 _ p hp2 with hp3 | hp3
      · rcases nextStep_pairs codes idx 1 _ p hp3 with hp4 | hp4
        · exact Or.inl hp4
        · exact Or.inr ⟨by omega, by omega, hp4.2.1, hp4.2.2.1, hp4.2.2.2⟩
      · exact Or.inr ⟨by omega, by omega, hp3.2.1, hp3.2.2.1, hp3.2.2.2⟩
    · exact Or.inr ⟨by omega, by omega, hp2.2.1, hp2.2.2.1, hp2.2.2.2⟩
  rcases hnext with hp2 | hp2
  · rcases hcur p hp2 with hp3 | hp3
    · have hb := hprev p hp3
      exact ⟨hb.1, by omega, hb.2.2.1, by omega,
        fun _ => by rw [hb.2.2.2.2]; exact hb.2.2.2.1, hb.2.2.2.2⟩
    · refine ⟨by omega, by omega, by omega, by omega, ?_, hp3.2⟩
      intro hne
      exact absurd hp3.1 hne
  · exact ⟨by omega, by omega, by omega, hp2.2.2.1,
      fun _ => by rw [hp2.2.2.2.2]; exact hp2.2.2.2.1, hp2.2.2.2.2⟩

/-- Witness for C2 (amended) at a concrete window. -/
theorem gsil_C2_witness :
    (1 : Int) - 3 ≤ 2 ∧ (2 : Int) ≤ 1 + 3 ∧ (0 : Int) ≤ 2 ∧
      (2 : Int) < ((["a", "b", "c"] : List String).length : Int) ∧
      ((2 : Int) ≠ 1 → pyIsBlank "c" = false) ∧
      "c" = (["a", "b", "c"] : List String).getD (2 : Int).toNat "" :=
  gsil_C2_window_bounds ["a", "b", "c"] 1 (by decide) (by decide)
    ((2 : Int), "c") (by decide)

/-- C1 counterexample: on the two-line code `password1\npassword2` with
keyword `password` in normal-match mode, line indices 0 and 1 are each
emitted twice — once by each trigger line's window — so the fragment list
is `["password1", "password2", "password1", "password2"]` and the emitted
index sequence `[0, 1, 0, 1]` is not duplicate-free.  An index contained
in an earlier trigger's window *is* re-emitted by a later trigger. -/
theorem gsil_C1_counterexample :
    codesFn envTriv ruleNM "password1\npassword2"
      = some ["password1", "password2", "password1", "password2"] ∧
    ¬ ((normalMatchPairs ["password1", "password2"] ["password"]).map Prod.fst).Nodup := by
  constructor
  · decide
  · decide

/-- C2 counterexample: on `far\n\n\n\npassword` (trigger on the last
line, the three preceding physical lines blank), the emitted window is
just `["password"]`: the blank lines consumed the whole 3-line budget and
the non-blank line `far`, 4 physical lines above the trigger, is *not*
reached — refuting the claim that blank lines do not count toward the
budget. -/
theorem gsil_C2_counterexample :
    codesFn envTriv ruleNM "far\n\n\n\npassword" = some ["password"] ∧
    "far" ∉ normalMatch (pySplitlines (pyReplaceImg "far\n\n\n\npassword")) ["password"] := by
  constructor
  · decide
  · decide

/-! ## Coordinator lemmas: early abort, flushing, summary -/

theorem processOneHit_cases (env : PageEnv) (hashList : List String) (currentI : Nat)
    (content : Hit) (st : PState) :
    (∃ res : ScanResult, processOneHit env hashList currentI content st
        = { st with result := st.result ++ [(currentI, res)],
                    clones := st.clones ++ [(content.repo_html_url, res.hash)],
                    nextCount := st.nextCount + 1 }) ∨
    (∃ res : ScanResult, processOneHit env hashList currentI content st
        = { st with excludeResult := st.excludeResult ++ [(currentI, res)],
                    clones := st.clones ++ [(content.repo_html_url, res.hash)],
                    nextCount := st.nextCount + 1 }) ∨
    processOneHit env hashList currentI content st
        = { st with processedCount := st.processedCount + 1 } ∨
    processOneHit env hashList currentI content st = st := by
  unfold processOneHit
  rcases hs : content.sha? with _ | s <;> dsimp only
  · split_ifs with h1 h2
    · exact Or.inr (Or.inr (Or.inl rfl))
    · exact Or.inr (Or.inr (Or.inr rfl))
    · rcases hd : content.decoded? with _ | code <;> dsimp only
      · exact Or.inr (Or.inr (Or.inr rfl))
      · split_ifs with h3 h4
        · exact Or.inr (Or.inr (Or.inr rfl))
        · exact Or.inr (Or.inl ⟨_, rfl⟩)
        · exact Or.inl ⟨_, rfl⟩
  · split_ifs with h1 h2
    · exact Or.inr (Or.inr (Or.inl rfl))
    · exact Or.inr (Or.inr (Or.inr rfl))
    · rcases hd : content.decoded? with _ | code <;> dsimp only
      · exact Or.inr (Or.inr (Or.inr rfl))
      · split_ifs with h3 h4
        · exact Or.inr (Or.inr (Or.inr rfl))
        · exact Or.inr (Or.inl ⟨_, rfl⟩)
        · exact Or.inl ⟨_, rfl⟩

theorem processOneHit_nextCount_le (env : PageEnv) (hashList : List String)
    (currentI : Nat) (content : Hit) (st : PState) :
    st.nextCount ≤ (processOneHit env hashList currentI content st).nextCount := by
  rcases processOneHit_cases env hashList currentI content st with
    ⟨res, h⟩ | ⟨res, h⟩ | h | h <;> rw [h] <;> simp

theorem processOneHit_maps_of_nextCount_eq (env : PageEnv) (hashList : List String)
    (currentI : Nat) (content : Hit) (st : PState)
    (h : (processOneHit env hashList currentI content st).nextCount = st.nextCount) :
    (processOneHit env hashList currentI content st).result = st.result ∧
    (processOneHit env hashList currentI content st).excludeResult = st.excludeResult := by
  rcases processOneHit_cases env hashList currentI content st with
    ⟨res, h2⟩ | ⟨res, h2⟩ | h2 | h2 <;> rw [h2] <;> rw [h2] at h <;> simp_all

theorem processHits_true_of_pos (env : PageEnv) (hashList : List String) (page : Nat) :
    ∀ (hits : List Hit) (index : Nat) (st : PState), 0 < st.nextCount →
      (processHits env hashList page hits index st).1 = true := by
  intro hits
  induction hits with
  | nil => intro index st h; rfl
  | cons content rest ih =>
    intro index st h
    unfold processHits
    rw [if_neg (by omega : ¬ (st.nextCount = 0 ∧ st.processedCount > 3))]
    apply ih
    have := processOneHit_nextCount_le env hashList (page * perPage + index) content st
    omega

theorem processHits_false_inv (env : PageEnv) (hashList : List String) (page : Nat) :
    ∀ (hits : List Hit) (index : Nat) (st st' : PState),
      processHits env hashList page hits index st = (false, st') →
      st'.result = st.result ∧ st'.excludeResult = st.excludeResult := by
  intro hits
  induction hits with
  | nil =>
    intro index st st' h
    unfold processHits at h
    simp at h
  | cons content rest ih =>
    intro index st st' h
    unfold processHits at h
    split_ifs at h with hc
    · cases h
      exact ⟨rfl, rfl⟩
    · by_cases hn : 0 < (processOneHit env hashList (page * perPage + index) content st).nextCount
      · have ht := processHits_true_of_pos env hashList page rest (index + 1) _ hn
        rw [h] at ht
        simp at ht
      · have hle := processOneHit_nextCount_le env hashList (page * perPage + index) content st
        have heq : (processOneHit env hashList (page * perPage + index) content st).nextCount
            = st.nextCount := by omega
        have hmaps := processOneHit_maps_of_nextCount_eq env hashList
          (page * perPage + index) content st heq
        have hih := ih (index + 1) _ st' h
        exact ⟨hih.1.trans hmaps.1, hih.2.trans hmaps.2⟩

/-- C3 (amended): the early-abort check of `Engine.process_pages` runs
before *every* hit — including a page's first hit, with counters carried
over from earlier pages — so whenever `next_count == 0 ∧
processed_count > 3` holds, the current hit and every remaining hit of
the rule are skipped: `process_pages` returns `False` immediately with
the state untouched, and `Engine.search` then breaks out of the page loop
without touching the remaining pages. -/
theorem gsil_C3_abort :
    (∀ (env : PageEnv) (hashList : List String) (page : Nat) (hits : List Hit)
        (index : Nat) (st : PState),
        st.nextCount = 0 → st.processedCount > 3 → hits ≠ [] →
        processHits env hashList page hits index st = (false, st)) ∧
    (∀ (env : PageEnv) (hashList : List String) (page : Nat) (cur : PState)
        (flushes : List (List (Nat × ScanResult))) (hits : List Hit)
        (rest : List Fetch) (st' : PState),
        processHits env hashList page hits 0 (resetMaps cur) = (false, st') →
        searchLoop env hashList page cur flushes (Fetch.ok hits :: rest)
          = some (st'.result.length, flushes, st')) := by
  constructor
  · intro env hashList page hits index st hn hp hne
    rcases hits with _ | ⟨content, rest⟩
    · exact absurd rfl hne
    · unfold processHits
      rw [if_pos ⟨hn, hp⟩]
  · intro env hashList page cur flushes hits rest st' h
    have hunf : searchLoop env hashList page cur flushes (Fetch.ok hits :: rest)
        = match processHits env hashList page hits 0 (resetMaps cur) with
          | (true, st) => searchLoop env hashList (page + 1) st (flushes ++ [st.result]) rest
          | (false, st) => some (st.result.length, flushes, st) := rfl
    rw [hunf, h]

/-- Witness for C3 (amended): the spec's 5-hit scenario — a page of five
hits whose first four are dedup skips ends with `processed_count = 4`,
`next_count = 0` and the early-stop signal, the fifth hit never
evaluated; and from that state the abort fires immediately on any further
hit. -/
theorem gsil_C3_witness :
    processHits envPage0 hlFive 0
        [hitSha "s1", hitSha "s2", hitSha "s3", hitSha "s4", hitSha "s5"] 0
        ⟨0, 0, [], [], []⟩ = (false, ⟨4, 0, [], [], []⟩) ∧
    processHits envPage0 hlFive 1 [hitSha "s5"] 0 ⟨4, 0, [], [], []⟩
      = (false, ⟨4, 0, [], [], []⟩) :=
  ⟨by decide,
   gsil_C3_abort.1 envPage0 hlFive 1 [hitSha "s5"] 0 ⟨4, 0, [], [], []⟩
     rfl (by decide) (by decide)⟩

/-- C3 counterexample: the abort does *not* require a hit of the current
page to have been processed first.  With page 0 containing exactly four
dedup-skipped hits and page 1 containing one hit, the whole run ends with
`processed_count = 4`: the abort fires at page 1's *first* hit (zero hits
of that page processed — the hit's own dedup increment never happens),
refuting "fires only after at least one hit of the current page has been
processed". -/
theorem gsil_C3_counterexample :
    searchModel envPage0 hlFive [Fetch.ok pageFour, Fetch.ok [hitSha "s5"]]
      = some (0, [[]], ⟨4, 0, [], [], []⟩) := by
  decide

/-- C4 (amended): a page whose hits were handed to the pipeline with
`process_pages` returning `True` is flushed to the reporting collaborator
before the loop advances; but the page on which the early abort fires is
*not* flushed — `Engine.search` breaks (line 234) before the
`Process(...).process()` call (line 236) — its confirmed-result map being
necessarily empty at that point (the abort requires `next_count == 0`). -/
theorem gsil_C4_flush :
    (∀ (env : PageEnv) (hashList : List String) (page : Nat) (cur : PState)
        (flushes : List (List (Nat × ScanResult))) (hits : List Hit)
        (rest : List Fetch) (st' : PState),
        processHits env hashList page hits 0 (resetMaps cur) = (true, st') →
        searchLoop env hashList page cur flushes (Fetch.ok hits :: rest)
          = searchLoop env hashList (page + 1) st' (flushes ++ [st'.result]) rest) ∧
    (∀ (env : PageEnv) (hashList : List String) (page : Nat) (cur : PState)
        (flushes : List (List (Nat × ScanResult))) (hits : List Hit)
        (rest : List Fetch) (st' : PState),
        processHits env hashList page hits 0 (resetMaps cur) = (false, st') →
        searchLoop env hashList page cur flushes (Fetch.ok hits :: rest)
            = some (st'.result.length, flushes, st') ∧
          st'.result = []) := by
  constructor
  · intro env hashList page cur flushes hits rest st' h
    have hunf : searchLoop env hashList page cur flushes (Fetch.ok hits :: rest)
        = match processHits env hashList page hits 0 (resetMaps cur) with
          | (true, st) => searchLoop env hashList (page + 1) st (flushes ++ [st.result]) rest
          | (false, st) => some (st.result.length, flushes, st) := rfl
    rw [hunf, h]
  · intro env hashList page cur flushes hits rest st' h
    constructor
    · have hunf : searchLoop env hashList page cur flushes (Fetch.ok hits :: rest)
          = match processHits env hashList page hits 0 (resetMaps cur) with
            | (true, st) => searchLoop env hashList (page + 1) st (flushes ++ [st.result]) rest
            | (false, st) => some (st.result.length, flushes, st) := rfl
      rw [hunf, h]
    · have := (processHits_false_inv env hashList page hits 0 (resetMaps cur) st' h).1
      simpa [resetMaps] using this

/-- Witness for C4 (amended): a normally completed page is flushed before
advancing. -/
theorem gsil_C4_witness :
    searchLoop envPageX [] 0 ⟨0, 0, [], [], []⟩ [] [Fetch.ok [hitNew]]
      = searchLoop envPageX [] 1 stNew ([] ++ [stNew.result]) [] :=
  gsil_C4_flush.1 envPageX [] 0 ⟨0, 0, [], [], []⟩ [] [hitNew] [] stNew (by decide)

/-- C4 counterexample: three pages are fetched and handed to the per-hit
pipeline (the third triggering the early abort), yet only two flush
events reach the reporting collaborator — the abort page is never
flushed, refuting "including the page on which the early-rule-abort
triggers". -/
theorem gsil_C4_counterexample :
    (searchModel envPage0 hlFive
        [Fetch.ok [hitSha "s1", hitSha "s2"], Fetch.ok [hitSha "s3", hitSha "s4"],
         Fetch.ok [hitSha "s5"]]).map (fun r => (r.1, r.2.1.length))
      = some (0, 2) := by
  decide

/-- C10: the summary value of a successful rule scan is `len(self.result)`
after the loop — the confirmed-result map of only the last page iterated,
because both maps are reset at the start of every page (engine.py lines
218-219); results flushed for earlier pages are not counted (the closed
third conjunct shows a run whose first page flushed one confirmed result
but whose summary is 0). -/
theorem gsil_C10_summary :
    (∀ (env : PageEnv) (hashList : List String) (page : Nat) (cur : PState)
        (flushes : List (List (Nat × ScanResult))) (f : Fetch) (rest : List Fetch)
        (r e : List (Nat × ScanResult)),
        searchLoop env hashList page cur flushes (f :: rest)
          = searchLoop env hashList page
              { cur with result := r, excludeResult := e } flushes (f :: rest)) ∧
    (∀ (env : PageEnv) (hashList : List String) (page : Nat) (cur : PState)
        (flushes : List (List (Nat × ScanResult))) (hits : List Hit) (n : Nat)
        (flushes' : List (List (Nat × ScanResult))) (stF : PState),
        searchLoop env hashList page cur flushes [Fetch.ok hits] = some (n, flushes', stF) →
        n = (processHits env hashList page hits 0 (resetMaps cur)).2.result.length) ∧
    (searchModel envPageX [] [Fetch.ok [hitNew], Fetch.ok []]).map
        (fun r => (r.1, r.2.1.map List.length)) = some (0, [1, 0]) := by
  refine ⟨?_, ?_, by decide⟩
  · intro env hashList page cur flushes f rest r e
    rfl
  · intro env hashList page cur flushes hits n flushes' stF h
    unfold searchLoop at h
    dsimp only at h
    rcases hph : processHits env hashList page hits 0 (resetMaps cur) with ⟨b, st⟩
    rw [hph] at h
    rcases b
    · simp only [searchLoop] at h
      cases h
      rfl
    · simp only [searchLoop] at h
      cases h
      rfl

/-- Witness for C10 at a concrete one-page run. -/
theorem gsil_C10_witness :
    (1 : Nat) = (processHits envPageX [] 0 [hitNew] 0
        (resetMaps ⟨0, 0, [], [], []⟩)).2.result.length :=
  gsil_C10_summary.2.1 envPageX [] 0 ⟨0, 0, [], [], []⟩ [] [hitNew] 1
    [[(0, resNew)]] stNew (by decide)

end GSIL
